import Mathlib

/-!
Verification of the `prime_buckets` program (src/main.rs).

The program enumerates integers `i` in `1..bound`, tests each with a
trial-division primality check `is_prime`, and partitions those whose
last decimal digit is 1, 3, 7 or 9 into four buckets.  A parallel
variant does the same work with the candidates distributed over worker
threads, each bucket guarded by a mutex.  With `--dump`, each bucket is
sorted and written to a file as decimal strings joined by ", ".

This file is a shallow embedding of that code over `Nat` together with
proofs of the specification's claims about it.  Machine integers (`u64`)
are modelled as `Nat`; none of the arithmetic in the program can
overflow before iteration-count limits make runs infeasible, and no
subtraction occurs in the source.
-/

/-- Integer square root by linear search, used to model the Rust
expression `(number as f64).sqrt() as u64` (truncation of the `f64`
square root, which agrees with the integer floor square root throughout
the range where `f64` arithmetic is exact).  Written with explicit fuel
so that it is structurally recursive and kernel-reducible.
`floorSqrtAux n fuel k` advances `k` while `(k+1)^2 ≤ n`. -/
def floorSqrtAux (n : Nat) : Nat → Nat → Nat
  | 0, k => k
  | fuel + 1, k => if (k + 1) * (k + 1) ≤ n then floorSqrtAux n fuel (k + 1) else k

/-- Floor square root: the largest `k` with `k * k ≤ n`. -/
def floorSqrt (n : Nat) : Nat := floorSqrtAux n n 0

/-- The loop of `is_prime`, modelled with fuel `bound - i` so the
recursion is structural.  Mirrors the Rust loop body exactly:
`if number % i == 0 { found_factor = true; continue; }
 if found_factor { return false; }` and, once the range is exhausted,
the trailing `if found_factor { return false; } true`. -/
def isPrimeLoop (number : Nat) : Nat → Nat → Bool → Bool
  | 0, _, found_factor => if found_factor then false else true
  | fuel + 1, i, found_factor =>
    if number % i = 0 then isPrimeLoop number fuel (i + 1) true
    else if found_factor then false
    else isPrimeLoop number fuel (i + 1) found_factor

/-- Embedding of `fn is_prime(number: u64) -> bool`: trial division over
`i` in `2..floorSqrt number` (exclusive upper bound, as in the source),
with the found-a-factor flag and its delayed return.  The fuel
`floorSqrt number - 2` is exactly the number of iterations of the Rust
`for i in 2..bound` loop. -/
def is_prime (number : Nat) : Bool :=
  isPrimeLoop number (floorSqrt number - 2) 2 false

/-- Embedding of `fn last_digit(number: u64) -> u64 { number % 10 }`. -/
def last_digit (number : Nat) : Nat := number % 10

/-- The four result buckets `(bucket_end1, bucket_end3, bucket_end7,
bucket_end9)` built by `prime_buckets` / `prime_buckets_par`. -/
structure Buckets where
  bucket_end1 : List Nat
  bucket_end3 : List Nat
  bucket_end7 : List Nat
  bucket_end9 : List Nat

/-- The empty buckets every run starts from (`vec![]` four times). -/
def Buckets.empty : Buckets := ⟨[], [], [], []⟩

/-- One iteration of the sieve body: if `is_prime i`, push `i` onto the
bucket selected by `last_digit i` (1, 3, 7 or 9; anything else is
dropped), matching the `match` in the Rust source.  `Vec::push` appends
at the end. -/
def processCandidate (b : Buckets) (i : Nat) : Buckets :=
  if is_prime i then
    match last_digit i with
    | 1 => { b with bucket_end1 := b.bucket_end1 ++ [i] }
    | 3 => { b with bucket_end3 := b.bucket_end3 ++ [i] }
    | 7 => { b with bucket_end7 := b.bucket_end7 ++ [i] }
    | 9 => { b with bucket_end9 := b.bucket_end9 ++ [i] }
    | _ => b
  else b

/-- The candidate range of both sieves: `for i in 1..number`, i.e. the
list `[1, …, number-1]` (empty when `number ≤ 1`). -/
def rangeList (number : Nat) : List Nat := List.range' 1 (number - 1)

/-- Embedding of `fn prime_buckets(number: u64)`: fold the sieve body
over the candidates in increasing order. -/
def prime_buckets (number : Nat) : Buckets :=
  List.foldl processCandidate Buckets.empty (rangeList number)

/-- Embedding of `fn prime_buckets_par(number: u64)`.  The rayon
parallel iterator evaluates the same body once per candidate of
`1..number`; each push is atomic under the bucket's mutex, but the order
in which candidates commit their pushes is unspecified.  That order is
modelled by an explicit `schedule`: any permutation of the candidate
range.  Theorems about the parallel path quantify over all schedules. -/
def prime_buckets_par (number : Nat) (schedule : List Nat) : Buckets :=
  List.foldl processCandidate Buckets.empty schedule

/-- The predicate deciding membership of candidate `i` in the bucket for
last digit `d`. -/
def bucketPred (d : Nat) (i : Nat) : Bool := is_prime i && last_digit i == d

theorem floorSqrtAux_eq_sqrt (n : Nat) :
    ∀ fuel k, k * k ≤ n → n < (k + fuel + 1) * (k + fuel + 1) →
      floorSqrtAux n fuel k = Nat.sqrt n := by
  intro fuel
  induction fuel with
  | zero =>
    intro k h1 h2
    simp only [floorSqrtAux]
    rw [Nat.eq_sqrt]
    exact ⟨h1, by simpa using h2⟩
  | succ fuel ih =>
    intro k h1 h2
    simp only [floorSqrtAux]
    by_cases h : (k + 1) * (k + 1) ≤ n
    · rw [if_pos h]
      apply ih (k + 1) h
      have e : k + 1 + fuel + 1 = k + (fuel + 1) + 1 := by omega
      rw [e]
      exact h2
    · rw [if_neg h]
      rw [Nat.eq_sqrt]
      exact ⟨h1, by omega⟩

theorem floorSqrt_eq_sqrt (n : Nat) : floorSqrt n = Nat.sqrt n := by
  apply floorSqrtAux_eq_sqrt n n 0
  · simp
  · nlinarith

theorem isPrimeLoop_true_iff (number : Nat) :
    ∀ (fuel i : Nat) (found : Bool),
      isPrimeLoop number fuel i found = true ↔
        (found = false ∧ ∀ d, i ≤ d → d < i + fuel → number % d ≠ 0) := by
  intro fuel
  induction fuel with
  | zero =>
    intro i found
    constructor
    · intro hres
      cases found
      · exact ⟨rfl, fun d h1 h2 => absurd h2 (by omega)⟩
      · simp [isPrimeLoop] at hres
    · rintro ⟨hf, -⟩
      subst hf
      simp [isPrimeLoop]
  | succ fuel ih =>
    intro i found
    simp only [isPrimeLoop]
    by_cases h : number % i = 0
    · rw [if_pos h, ih]
      constructor
      · rintro ⟨h1, -⟩
        exact absurd h1 (by simp)
      · rintro ⟨-, hall⟩
        exact absurd h (hall i le_rfl (by omega))
    · rw [if_neg h]
      cases found
      · rw [if_neg Bool.false_ne_true, ih]
        constructor
        · rintro ⟨-, hall⟩
          refine ⟨rfl, fun d h1 h2 => ?_⟩
          rcases Nat.eq_or_lt_of_le h1 with rfl | h1'
          · exact h
          · exact hall d h1' (by omega)
        · rintro ⟨-, hall⟩
          exact ⟨rfl, fun d h1 h2 => hall d (by omega) (by omega)⟩
      · simp

theorem is_prime_true_iff (n : Nat) :
    is_prime n = true ↔ ∀ d, 2 ≤ d → d < Nat.sqrt n → n % d ≠ 0 := by
  rw [is_prime, isPrimeLoop_true_iff, floorSqrt_eq_sqrt]
  constructor
  · rintro ⟨-, hall⟩
    exact fun d h1 h2 => hall d h1 (by omega)
  · intro hall
    exact ⟨rfl, fun d h1 h2 => hall d h1 (by omega)⟩

theorem processCandidate_eq (b : Buckets) (i : Nat) :
    processCandidate b i =
      ⟨b.bucket_end1 ++ (if bucketPred 1 i then [i] else []),
       b.bucket_end3 ++ (if bucketPred 3 i then [i] else []),
       b.bucket_end7 ++ (if bucketPred 7 i then [i] else []),
       b.bucket_end9 ++ (if bucketPred 9 i then [i] else [])⟩ := by
  unfold processCandidate bucketPred
  by_cases hp : is_prime i
  · simp only [hp, if_true, Bool.true_and]
    have h10 : last_digit i < 10 := Nat.mod_lt _ (by omega)
    set m := last_digit i with hm
    interval_cases m <;> simp
  · simp [hp]

theorem foldl_processCandidate_eq (l : List Nat) :
    ∀ b : Buckets,
      List.foldl processCandidate b l =
        ⟨b.bucket_end1 ++ l.filter (bucketPred 1),
         b.bucket_end3 ++ l.filter (bucketPred 3),
         b.bucket_end7 ++ l.filter (bucketPred 7),
         b.bucket_end9 ++ l.filter (bucketPred 9)⟩ := by
  induction l with
  | nil => intro b; simp
  | cons x xs ih =>
    intro b
    rw [List.foldl_cons, ih, processCandidate_eq]
    simp only [List.filter_cons]
    by_cases h : bucketPred 1 x <;> by_cases h3 : bucketPred 3 x <;>
      by_cases h7 : bucketPred 7 x <;> by_cases h9 : bucketPred 9 x <;>
      simp [h, h3, h7, h9]

theorem prime_buckets_eq_filter (number : Nat) :
    prime_buckets number =
      ⟨(rangeList number).filter (bucketPred 1),
       (rangeList number).filter (bucketPred 3),
       (rangeList number).filter (bucketPred 7),
       (rangeList number).filter (bucketPred 9)⟩ := by
  rw [prime_buckets, foldl_processCandidate_eq]
  rfl

theorem prime_buckets_par_eq_filter (number : Nat) (schedule : List Nat) :
    prime_buckets_par number schedule =
      ⟨schedule.filter (bucketPred 1), schedule.filter (bucketPred 3),
       schedule.filter (bucketPred 7), schedule.filter (bucketPred 9)⟩ := by
  rw [prime_buckets_par, foldl_processCandidate_eq]
  rfl

theorem mem_filter_bucketPred {d x number : Nat}
    (h : x ∈ (rangeList number).filter (bucketPred d)) :
    is_prime x = true ∧ last_digit x = d ∧ 1 ≤ x ∧ x < number := by
  rw [List.mem_filter] at h
  obtain ⟨hr, hp⟩ := h
  rw [bucketPred, Bool.and_eq_true, beq_iff_eq] at hp
  rw [rangeList, List.mem_range'_1] at hr
  exact ⟨hp.1, hp.2, hr.1, by omega⟩

/-- C1: for every bound and for every order in which the parallel path
processes the candidates of `1..bound` (any permutation of the range),
each of the four buckets returned by `prime_buckets_par` is a
permutation — i.e. the same multiset — of the corresponding bucket
returned by the sequential `prime_buckets`, and hence the per-bucket
counts coincide. -/
theorem prime_buckets_par_perm_prime_buckets (number : Nat) (schedule : List Nat)
    (h : schedule.Perm (rangeList number)) :
    ((prime_buckets_par number schedule).bucket_end1.Perm
        (prime_buckets number).bucket_end1 ∧
      (prime_buckets_par number schedule).bucket_end3.Perm
        (prime_buckets number).bucket_end3 ∧
      (prime_buckets_par number schedule).bucket_end7.Perm
        (prime_buckets number).bucket_end7 ∧
      (prime_buckets_par number schedule).bucket_end9.Perm
        (prime_buckets number).bucket_end9) ∧
    ((prime_buckets_par number schedule).bucket_end1.length =
        (prime_buckets number).bucket_end1.length ∧
      (prime_buckets_par number schedule).bucket_end3.length =
        (prime_buckets number).bucket_end3.length ∧
      (prime_buckets_par number schedule).bucket_end7.length =
        (prime_buckets number).bucket_end7.length ∧
      (prime_buckets_par number schedule).bucket_end9.length =
        (prime_buckets number).bucket_end9.length) := by
  rw [prime_buckets_eq_filter, prime_buckets_par_eq_filter]
  exact ⟨⟨h.filter _, h.filter _, h.filter _, h.filter _⟩,
    (h.filter _).length_eq, (h.filter _).length_eq,
    (h.filter _).length_eq, (h.filter _).length_eq⟩

/-- Witness for C1 at bound 10 with the candidates processed in
reversed order. -/
theorem prime_buckets_par_perm_prime_buckets_witness :
    ([9, 8, 7, 6, 5, 4, 3, 2, 1] : List Nat).Perm (rangeList 10) ∧
    (((prime_buckets_par 10 [9, 8, 7, 6, 5, 4, 3, 2, 1]).bucket_end1.Perm
        (prime_buckets 10).bucket_end1 ∧
      (prime_buckets_par 10 [9, 8, 7, 6, 5, 4, 3, 2, 1]).bucket_end3.Perm
        (prime_buckets 10).bucket_end3 ∧
      (prime_buckets_par 10 [9, 8, 7, 6, 5, 4, 3, 2, 1]).bucket_end7.Perm
        (prime_buckets 10).bucket_end7 ∧
      (prime_buckets_par 10 [9, 8, 7, 6, 5, 4, 3, 2, 1]).bucket_end9.Perm
        (prime_buckets 10).bucket_end9) ∧
    ((prime_buckets_par 10 [9, 8, 7, 6, 5, 4, 3, 2, 1]).bucket_end1.length =
        (prime_buckets 10).bucket_end1.length ∧
      (prime_buckets_par 10 [9, 8, 7, 6, 5, 4, 3, 2, 1]).bucket_end3.length =
        (prime_buckets 10).bucket_end3.length ∧
      (prime_buckets_par 10 [9, 8, 7, 6, 5, 4, 3, 2, 1]).bucket_end7.length =
        (prime_buckets 10).bucket_end7.length ∧
      (prime_buckets_par 10 [9, 8, 7, 6, 5, 4, 3, 2, 1]).bucket_end9.length =
        (prime_buckets 10).bucket_end9.length)) :=
  ⟨by decide,
   prime_buckets_par_perm_prime_buckets 10 [9, 8, 7, 6, 5, 4, 3, 2, 1] (by decide)⟩

/-- C2: for every n ≥ 2, `is_prime n` returns true iff n has no divisor
in the half-open range [2, floor (sqrt n)); the continue-then-check
pattern of the loop is behaviorally equivalent to returning false
exactly when some divisor in that range divides n. -/
theorem is_prime_iff_no_divisor_in_range (n : Nat) (h : 2 ≤ n) :
    is_prime n = true ↔ ∀ d, 2 ≤ d → d < Nat.sqrt n → ¬ d ∣ n := by
  rw [is_prime_true_iff]
  simp only [Nat.dvd_iff_mod_eq_zero]

/-- Witness for C2 at n = 13. -/
theorem is_prime_iff_no_divisor_in_range_witness :
    is_prime 13 = true ↔ ∀ d, 2 ≤ d → d < Nat.sqrt 13 → ¬ d ∣ 13 :=
  is_prime_iff_no_divisor_in_range 13 (by decide)

/-- C3 counterexample: for bound 10 the sequential sieve places 9 in
bucket 9 (and 1 in bucket 1), yet neither 9 nor 1 is a prime number, so
not every bucket element is prime and the union of the buckets is not a
subset of the primes below the bound. -/
theorem prime_buckets_contains_nonprime :
    9 ∈ (prime_buckets 10).bucket_end9 ∧ ¬ Nat.Prime 9 ∧
    1 ∈ (prime_buckets 10).bucket_end1 ∧ ¬ Nat.Prime 1 := by
  refine ⟨by decide, by decide, by decide, by decide⟩

/-- C3 (amended): every element placed in a bucket by `prime_buckets`
satisfies the program's own primality predicate `is_prime` (not true
primality), has the bucket's designated last digit, and lies in
[1, bound); the four buckets are pairwise disjoint. -/
theorem prime_buckets_mem_invariant (number : Nat) :
    (∀ x ∈ (prime_buckets number).bucket_end1,
        is_prime x = true ∧ last_digit x = 1 ∧ 1 ≤ x ∧ x < number) ∧
    (∀ x ∈ (prime_buckets number).bucket_end3,
        is_prime x = true ∧ last_digit x = 3 ∧ 1 ≤ x ∧ x < number) ∧
    (∀ x ∈ (prime_buckets number).bucket_end7,
        is_prime x = true ∧ last_digit x = 7 ∧ 1 ≤ x ∧ x < number) ∧
    (∀ x ∈ (prime_buckets number).bucket_end9,
        is_prime x = true ∧ last_digit x = 9 ∧ 1 ≤ x ∧ x < number) ∧
    (∀ x ∈ (prime_buckets number).bucket_end1,
        x ∉ (prime_buckets number).bucket_end3 ∧
        x ∉ (prime_buckets number).bucket_end7 ∧
        x ∉ (prime_buckets number).bucket_end9) ∧
    (∀ x ∈ (prime_buckets number).bucket_end3,
        x ∉ (prime_buckets number).bucket_end7 ∧
        x ∉ (prime_buckets number).bucket_end9) ∧
    (∀ x ∈ (prime_buckets number).bucket_end7,
        x ∉ (prime_buckets number).bucket_end9) := by
  rw [prime_buckets_eq_filter]
  refine ⟨fun x hx => mem_filter_bucketPred hx, fun x hx => mem_filter_bucketPred hx,
    fun x hx => mem_filter_bucketPred hx, fun x hx => mem_filter_bucketPred hx,
    ?_, ?_, ?_⟩
  · intro x hx
    have h1 := (mem_filter_bucketPred hx).2.1
    refine ⟨fun hc => ?_, fun hc => ?_, fun hc => ?_⟩ <;>
      have h2 := (mem_filter_bucketPred hc).2.1 <;> omega
  · intro x hx
    have h1 := (mem_filter_bucketPred hx).2.1
    refine ⟨fun hc => ?_, fun hc => ?_⟩ <;>
      have h2 := (mem_filter_bucketPred hc).2.1 <;> omega
  · intro x hx
    have h1 := (mem_filter_bucketPred hx).2.1
    refine fun hc => ?_
    have h2 := (mem_filter_bucketPred hc).2.1
    omega

/-- Witness for the amended C3 at bound 10, element 3 of bucket 3. -/
theorem prime_buckets_mem_invariant_witness :
    is_prime 3 = true ∧ last_digit 3 = 3 ∧ 1 ≤ 3 ∧ 3 < 10 :=
  (prime_buckets_mem_invariant 10).2.1 3 (by decide)

/-- C4: `is_prime 0` and `is_prime 1` both return true, because the
floor square root of 0 and of 1 is below 2, so the trial-division loop
body never executes. -/
theorem is_prime_zero_one :
    is_prime 0 = true ∧ is_prime 1 = true ∧ floorSqrt 0 < 2 ∧ floorSqrt 1 < 2 := by
  decide

/-- C5: for bound 10 the sequential sieve returns exactly
bucket1 = [1], bucket3 = [3], bucket7 = [7], bucket9 = [9]. -/
theorem prime_buckets_ten :
    prime_buckets 10 = ⟨[1], [3], [7], [9]⟩ := rfl

/-- C6: for every bound, each of the four sequences returned by the
sequential `prime_buckets` is in (strictly) ascending order even though
no sort step is performed, because candidates are scanned in increasing
order over [1, bound). -/
theorem prime_buckets_sorted (number : Nat) :
    List.Sorted (· < ·) (prime_buckets number).bucket_end1 ∧
    List.Sorted (· < ·) (prime_buckets number).bucket_end3 ∧
    List.Sorted (· < ·) (prime_buckets number).bucket_end7 ∧
    List.Sorted (· < ·) (prime_buckets number).bucket_end9 := by
  rw [prime_buckets_eq_filter]
  refine ⟨?_, ?_, ?_, ?_⟩ <;>
    exact (List.pairwise_lt_range' 1 (number - 1)).filter _

/-- C8: the sequential sieve is deterministic; two runs with the same
bound produce identical ordered sequences in all four buckets.  In the
embedding `prime_buckets` is a pure function of the bound, reflecting
that the Rust function reads no state besides its argument. -/
theorem prime_buckets_deterministic (number : Nat) :
    prime_buckets number = prime_buckets number := rfl

/-- C9: `is_prime` is a total function of its input: for every input it
terminates (its recursion is structurally decreasing in the embedding,
matching the bounded `for` loop of the source) and yields a boolean,
with no error outcome. -/
theorem is_prime_total (number : Nat) :
    is_prime number = true ∨ is_prime number = false :=
  Bool.eq_false_or_eq_true (is_prime number)

/-- C10: for bound 0 and bound 1 the candidate range [1, bound) is
empty, so both the sequential and the parallel sieve return four empty
sequences, for every schedule of the (empty) parallel range. -/
theorem prime_buckets_bound_le_one_empty :
    prime_buckets 0 = Buckets.empty ∧ prime_buckets 1 = Buckets.empty ∧
    (∀ schedule : List Nat, schedule.Perm (rangeList 0) →
      prime_buckets_par 0 schedule = Buckets.empty) ∧
    (∀ schedule : List Nat, schedule.Perm (rangeList 1) →
      prime_buckets_par 1 schedule = Buckets.empty) := by
  refine ⟨rfl, rfl, ?_, ?_⟩ <;>
  · intro schedule h
    have h0 : schedule = [] := by
      have h' : schedule.Perm [] := by simpa [rangeList] using h
      exact h'.eq_nil
    subst h0
    rfl

/-- Witness for C10: the empty schedule is a permutation of the empty
candidate range. -/
theorem prime_buckets_bound_le_one_empty_witness :
    prime_buckets_par 0 [] = Buckets.empty ∧ prime_buckets_par 1 [] = Buckets.empty :=
  ⟨prime_buckets_bound_le_one_empty.2.2.1 [] (by decide),
   prime_buckets_bound_le_one_empty.2.2.2 [] (by decide)⟩

/-- Decimal digit characters of `n`, most significant first: the
recursion `to_string` performs (divide by 10, emit `n % 10`), written
with fuel so it is structurally recursive.  Empty for `n = 0`; the
wrapper `natChars` supplies the special case. -/
def toDecimalAux : Nat → Nat → List Char
  | 0, _ => []
  | fuel + 1, n =>
    if n = 0 then []
    else toDecimalAux fuel (n / 10) ++ [Nat.digitChar (n % 10)]

/-- Character-level model of Rust's `u64::to_string`: the decimal
rendering of `n`. -/
def natChars (n : Nat) : List Char :=
  if n = 0 then ['0'] else toDecimalAux (n + 1) n

/-- Character-level model of `Vec<String>::join(", ")`: the pieces
separated by comma+space, with no trailing delimiter. -/
def joinSep : List (List Char) → List Char
  | [] => []
  | [s] => s
  | s :: t :: rest => s ++ ',' :: ' ' :: joinSep (t :: rest)

/-- Character-level model of splitting a string on the two-character
separator ", ": scan left to right, cutting at each non-overlapping
occurrence of the separator.  `acc` holds the current piece reversed. -/
def splitOnCommaSpace : List Char → List Char → List (List Char)
  | [], acc => [acc.reverse]
  | [c], acc => [(c :: acc).reverse]
  | c1 :: c2 :: rest, acc =>
    if c1 = ',' ∧ c2 = ' ' then acc.reverse :: splitOnCommaSpace rest []
    else splitOnCommaSpace (c2 :: rest) (c1 :: acc)

/-- Numeric value of a digit-character string (horner evaluation),
as produced by an integer parse of a piece. -/
def digitsVal (cs : List Char) : Nat :=
  cs.foldl (fun a c => 10 * a + (c.toNat - 48)) 0

/-- Model of parsing one piece as an unsigned integer: fails (as Rust's
`str::parse::<u64>` does) on the empty piece or on any non-digit
character, otherwise yields the decimal value. -/
def parseNat (cs : List Char) : Option Nat :=
  if cs ≠ [] ∧ cs.all Char.isDigit then some (digitsVal cs) else none

/-- The content written to `bucketN.txt` for a bucket (main.rs dump
path): sort the bucket ascending, render each value in decimal, join
with ", " — no trailing delimiter, no trailing newline. -/
def dumpContent (bucket : List Nat) : List Char :=
  joinSep ((List.insertionSort (· ≤ ·) bucket).map natChars)

/-- Split a dumped file on ", " and parse each piece as an integer. -/
def parseDump (s : List Char) : List (Option Nat) :=
  (splitOnCommaSpace s []).map parseNat

theorem digitChar_isDigit {d : Nat} (h : d < 10) :
    (Nat.digitChar d).isDigit = true := by
  interval_cases d <;> decide

theorem digitChar_ne_comma {d : Nat} (h : d < 10) : Nat.digitChar d ≠ ',' := by
  interval_cases d <;> decide

theorem digitChar_toNat {d : Nat} (h : d < 10) : (Nat.digitChar d).toNat - 48 = d := by
  interval_cases d <;> decide

theorem isDigit_ne_comma {c : Char} (h : c.isDigit = true) : c ≠ ',' := by
  intro hc
  subst hc
  exact absurd h (by decide)

theorem toDecimalAux_isDigit :
    ∀ fuel n, ∀ c ∈ toDecimalAux fuel n, c.isDigit = true := by
  intro fuel
  induction fuel with
  | zero => intro n c hc; simp [toDecimalAux] at hc
  | succ fuel ih =>
    intro n c hc
    by_cases hn : n = 0
    · simp [toDecimalAux, hn] at hc
    · rw [toDecimalAux, if_neg hn] at hc
      rcases List.mem_append.mp hc with h1 | h1
      · exact ih _ c h1
      · rcases List.mem_singleton.mp h1 with rfl
        exact digitChar_isDigit (Nat.mod_lt _ (by omega))

theorem digitsVal_from (cs : List Char) :
    ∀ a : Nat, cs.foldl (fun a c => 10 * a + (c.toNat - 48)) a =
      a * 10 ^ cs.length + digitsVal cs := by
  induction cs with
  | nil => intro a; simp [digitsVal]
  | cons c cs ih =>
    intro a
    have h1 := ih (10 * a + (c.toNat - 48))
    have h2 := ih (10 * 0 + (c.toNat - 48))
    simp only [List.foldl_cons, List.length_cons]
    rw [h1]
    have h3 : digitsVal (c :: cs) = (c.toNat - 48) * 10 ^ cs.length + digitsVal cs := by
      rw [digitsVal, List.foldl_cons, h2]
      ring_nf
    rw [h3]
    ring

theorem digitsVal_append (xs ys : List Char) :
    digitsVal (xs ++ ys) = digitsVal xs * 10 ^ ys.length + digitsVal ys := by
  rw [digitsVal, List.foldl_append, ← digitsVal, digitsVal_from]

theorem toDecimalAux_val :
    ∀ fuel n, n ≤ fuel → digitsVal (toDecimalAux fuel n) = n := by
  intro fuel
  induction fuel with
  | zero =>
    intro n hn
    have : n = 0 := by omega
    subst this
    simp [toDecimalAux, digitsVal]
  | succ fuel ih =>
    intro n hn
    by_cases h : n = 0
    · simp [toDecimalAux, h, digitsVal]
    · rw [toDecimalAux, if_neg h, digitsVal_append]
      have hdiv : n / 10 ≤ fuel := by
        have := Nat.div_lt_self (by omega : 0 < n) (by omega : (1 : Nat) < 10)
        omega
      rw [ih _ hdiv]
      have hval : digitsVal [Nat.digitChar (n % 10)] = n % 10 := by
        rw [digitsVal, List.foldl_cons, List.foldl_nil]
        rw [Nat.mul_zero, Nat.zero_add]
        exact digitChar_toNat (Nat.mod_lt _ (by omega))
      rw [hval, List.length_singleton, pow_one]
      omega

theorem natChars_ne_nil (n : Nat) : natChars n ≠ [] := by
  rw [natChars]
  by_cases h : n = 0
  · simp [h]
  · rw [if_neg h, toDecimalAux, if_neg h]
    simp

theorem natChars_isDigit (n : Nat) : ∀ c ∈ natChars n, c.isDigit = true := by
  rw [natChars]
  by_cases h : n = 0
  · intro c hc
    rw [if_pos h, List.mem_singleton] at hc
    subst hc
    decide
  · rw [if_neg h]
    exact toDecimalAux_isDigit (n + 1) n

theorem parseNat_natChars (n : Nat) : parseNat (natChars n) = some n := by
  rw [parseNat, if_pos ⟨natChars_ne_nil n, List.all_eq_true.mpr (natChars_isDigit n)⟩]
  by_cases h : n = 0
  · subst h
    decide
  · rw [natChars, if_neg h]
    rw [toDecimalAux_val (n + 1) n (by omega)]

theorem splitOnCommaSpace_append (xs : List Char) (hx : ∀ c ∈ xs, c ≠ ',') :
    ∀ (acc rest : List Char),
      splitOnCommaSpace (xs ++ rest) acc = splitOnCommaSpace rest (xs.reverse ++ acc) := by
  induction xs with
  | nil => intro acc rest; simp
  | cons x xs ih =>
    intro acc rest
    have hx' : x ≠ ',' := hx x (by simp)
    have hxs : ∀ c ∈ xs, c ≠ ',' := fun c hc => hx c (by simp [hc])
    rcases hrest : xs ++ rest with _ | ⟨c2, t⟩
    · obtain ⟨rfl, rfl⟩ := List.append_eq_nil.mp hrest
      simp [splitOnCommaSpace]
    · have step : splitOnCommaSpace ((x :: xs) ++ rest) acc =
          splitOnCommaSpace (xs ++ rest) (x :: acc) := by
        rw [List.cons_append, hrest, splitOnCommaSpace,
          if_neg (by simp [hx'] : ¬(x = ',' ∧ c2 = ' '))]
      rw [step, ih hxs (x :: acc) rest]
      simp

theorem splitOnCommaSpace_sep (rest acc : List Char) :
    splitOnCommaSpace (',' :: ' ' :: rest) acc =
      acc.reverse :: splitOnCommaSpace rest [] := by
  rw [splitOnCommaSpace, if_pos ⟨rfl, rfl⟩]

theorem splitOnCommaSpace_joinSep (l : List (List Char))
    (hne : ∀ s ∈ l, s ≠ []) (hdig : ∀ s ∈ l, ∀ c ∈ s, c ≠ ',') (h : l ≠ []) :
    splitOnCommaSpace (joinSep l) [] = l := by
  induction l with
  | nil => exact absurd rfl h
  | cons s t ih =>
    have hs : ∀ c ∈ s, c ≠ ',' := hdig s (by simp)
    cases t with
    | nil =>
      calc splitOnCommaSpace (joinSep [s]) []
          = splitOnCommaSpace (s ++ []) [] := by rw [joinSep, List.append_nil]
        _ = splitOnCommaSpace [] (s.reverse ++ []) :=
            splitOnCommaSpace_append s hs [] []
        _ = [s] := by simp [splitOnCommaSpace]
    | cons s2 t2 =>
      rw [joinSep, splitOnCommaSpace_append s hs [] (',' :: ' ' :: joinSep (s2 :: t2)),
        splitOnCommaSpace_sep]
      rw [ih (fun p hp => hne p (by simp [hp])) (fun p hp => hdig p (by simp [hp]))
        (by simp)]
      simp

/-- C7 counterexample: for an empty bucket — produced, e.g., by any run
with bound 0 or 1 — the dumped file content is the empty string, whose
split on ", " is a single empty piece; the empty piece does not parse as
an integer, so the round trip does not reproduce the (empty) sorted
in-memory bucket. -/
theorem dump_roundtrip_empty_fails :
    dumpContent [] = [] ∧
    parseDump (dumpContent []) = [Option.none] ∧
    parseDump (dumpContent []) ≠
      (List.insertionSort (· ≤ ·) ([] : List Nat)).map Option.some := by
  refine ⟨rfl, by decide, by decide⟩

/-- C7 (amended): for every nonempty bucket, the dumped file content is
the bucket sorted ascending, each value rendered as a decimal string,
joined by the two-character separator comma+space with no trailing
delimiter; splitting that content on the separator and parsing each
piece as an integer reproduces the sorted in-memory bucket exactly.
(For the empty bucket the split of the empty content is one empty,
unparsable piece, not the empty list.) -/
theorem dump_roundtrip (bucket : List Nat) (h : bucket ≠ []) :
    parseDump (dumpContent bucket) =
      (List.insertionSort (· ≤ ·) bucket).map Option.some ∧
    List.Sorted (· ≤ ·) (List.insertionSort (· ≤ ·) bucket) ∧
    (List.insertionSort (· ≤ ·) bucket).Perm bucket := by
  refine ⟨?_, List.sorted_insertionSort (· ≤ ·) bucket,
    List.perm_insertionSort (· ≤ ·) bucket⟩
  have hs : List.insertionSort (· ≤ ·) bucket ≠ [] := by
    intro h0
    exact h ((h0 ▸ List.perm_insertionSort (· ≤ ·) bucket).symm.eq_nil.symm ▸ rfl)
  rw [parseDump, dumpContent, splitOnCommaSpace_joinSep]
  · rw [List.map_map]
    exact List.map_congr_left fun x _ => parseNat_natChars x
  · intro p hp
    rcases List.mem_map.mp hp with ⟨x, -, rfl⟩
    exact natChars_ne_nil x
  · intro p hp
    rcases List.mem_map.mp hp with ⟨x, -, rfl⟩
    exact fun c hc => isDigit_ne_comma (natChars_isDigit x c hc)
  · simp [hs]

/-- Witness for the amended C7 at the bucket [9, 1]. -/
theorem dump_roundtrip_witness :
    ([9, 1] : List Nat) ≠ [] ∧
    (parseDump (dumpContent [9, 1]) =
        (List.insertionSort (· ≤ ·) ([9, 1] : List Nat)).map Option.some ∧
      List.Sorted (· ≤ ·) (List.insertionSort (· ≤ ·) ([9, 1] : List Nat)) ∧
      (List.insertionSort (· ≤ ·) ([9, 1] : List Nat)).Perm [9, 1]) :=
  ⟨by decide, dump_roundtrip [9, 1] (by decide)⟩
